import Mathlib

/-!
# Verification of the Social-Sync composite video pipeline

Shallow embedding, over `ℚ`, of the timeline arithmetic of
`src/core/video_analysis.py`, the composite renderer of
`src/core/composite_builder.py`, and the orchestration / multimedia
helpers of `src/core/video_processing.py`, together with proofs of the
specified properties.
-/

namespace SocialSync

/-! ## Timeline analyzer: `adjust_timestamps_for_cuts` (video_analysis.py) -/

/-- A segment of the source timeline to KEEP after silence removal
(`SilenceCut` dataclass; `end` is spelled `stop` because `end` is a Lean
keyword). -/
structure SilenceCut where
  start : ℚ
  stop : ℚ
  deriving Repr, DecidableEq

/-- The inner loop of `adjust_timestamps_for_cuts`: the `cumulative_time`
accumulated over the kept segments for one original timestamp `t`
(lines 186-196 of video_analysis.py). -/
def cumulativeKept (t : ℚ) : List SilenceCut → ℚ
  | [] => 0
  | c :: rest =>
    if c.start > t then 0
    else if c.stop ≤ t then (c.stop - c.start) + cumulativeKept t rest
    else t - c.start

/-- Adjustment of a single timestamp: `removed_before = original_t -
cumulative_time` and `adjusted_t = original_t - removed_before`
(lines 198-204 of video_analysis.py). -/
def adjustOne (cuts : List SilenceCut) (t : ℚ) : ℚ :=
  let cumulative := cumulativeKept t cuts
  let removedBefore := t - cumulative
  t - removedBefore

/-- `adjust_timestamps_for_cuts(original_timestamps, silence_cuts)`. -/
def adjust_timestamps_for_cuts (originalTimestamps : List ℚ)
    (silenceCuts : List SilenceCut) : List ℚ :=
  originalTimestamps.map (adjustOne silenceCuts)

/-- The `SilenceCut` list invariant of the data model: intervals are in
ascending order, non-overlapping, each nonempty and within the (nonnegative)
source timeline. -/
def CutsWellFormed (cuts : List SilenceCut) : Prop :=
  List.Chain' (fun a b => a.stop ≤ b.start) cuts ∧
    ∀ c ∈ cuts, 0 ≤ c.start ∧ c.start < c.stop

instance : DecidablePred CutsWellFormed := fun cuts =>
  decidable_of_iff
    (List.Chain' (fun a b : SilenceCut => a.stop ≤ b.start) cuts ∧
      ∀ c ∈ cuts, 0 ≤ c.start ∧ c.start < c.stop)
    Iff.rfl

/-- Modelled from the spec's wording: the measure of the part of the kept
intervals lying strictly before time `t` (i.e. of `(⋃ cuts) ∩ [0, t)`). -/
def specKeptBefore (cuts : List SilenceCut) (t : ℚ) : ℚ :=
  (cuts.map (fun c => max 0 (min c.stop t - max c.start 0))).sum

/-- Modelled from the spec's wording: `R(t)`, the total removed duration
strictly before `t`, where removed time is everything in `[0, t)` not covered
by a kept interval. -/
def specRemovedBefore (cuts : List SilenceCut) (t : ℚ) : ℚ :=
  t - specKeptBefore cuts t

lemma cutsWellFormed_cons {c : SilenceCut} {rest : List SilenceCut}
    (h : CutsWellFormed (c :: rest)) : CutsWellFormed rest :=
  ⟨h.1.tail, fun x hx => h.2 x (List.mem_cons_of_mem _ hx)⟩

/-- In a well-formed cut list, every later interval starts no earlier than
the head interval ends. -/
lemma head_stop_le_of_mem {c : SilenceCut} {rest : List SilenceCut}
    (h : CutsWellFormed (c :: rest)) : ∀ x ∈ rest, c.stop ≤ x.start := by
  induction rest generalizing c with
  | nil => intro x hx; cases hx
  | cons b rest ih =>
    intro x hx
    have hcb : c.stop ≤ b.start := List.chain'_cons.1 h.1 |>.1
    rcases List.mem_cons.1 hx with rfl | hx'
    · exact hcb
    · have hb : CutsWellFormed (b :: rest) := cutsWellFormed_cons h
      have hbx := ih hb x hx'
      have hbb : b.start < b.stop := (h.2 b (by simp)).2
      linarith [hbx]

/-- If every interval in the list starts strictly after `t`, its kept measure
before `t` vanishes. -/
lemma specKeptBefore_eq_zero_of_forall_lt {cuts : List SilenceCut} {t : ℚ}
    (h : ∀ c ∈ cuts, t < c.start) : specKeptBefore cuts t = 0 := by
  induction cuts with
  | nil => rfl
  | cons c rest ih =>
    have hc : t < c.start := h c (by simp)
    have hrest : specKeptBefore rest t = 0 :=
      ih (fun x hx => h x (List.mem_cons_of_mem _ hx))
    simp only [specKeptBefore, List.map_cons, List.sum_cons] at *
    rw [hrest]
    have hmin : min c.stop t ≤ t := min_le_right _ _
    have hmax : c.start ≤ max c.start 0 := le_max_left _ _
    have : min c.stop t - max c.start 0 ≤ 0 := by linarith
    simp [max_eq_left this]

/-- The source's cumulative-kept loop computes exactly the spec's kept
measure before `t`, for well-formed cuts. -/
lemma cumulativeKept_eq_specKeptBefore {cuts : List SilenceCut} {t : ℚ}
    (hw : CutsWellFormed cuts) :
    cumulativeKept t cuts = specKeptBefore cuts t := by
  induction cuts with
  | nil => rfl
  | cons c rest ih =>
    have hc := hw.2 c (by simp)
    have hrest : CutsWellFormed rest := cutsWellFormed_cons hw
    by_cases h1 : c.start > t
    · -- every interval (head and all later ones) starts strictly after t
      have hall : ∀ x ∈ (c :: rest), t < x.start := by
        intro x hx
        rcases List.mem_cons.1 hx with rfl | hx'
        · exact h1
        · have := head_stop_le_of_mem hw x hx'
          have := hc.2
          linarith
      rw [specKeptBefore_eq_zero_of_forall_lt hall]
      simp [cumulativeKept, h1]
    · push_neg at h1
      by_cases h2 : c.stop ≤ t
      · -- whole head interval lies before t
        have hterm : max 0 (min c.stop t - max c.start 0) = c.stop - c.start := by
          rw [min_eq_left h2, max_eq_left hc.1]
          exact max_eq_right (by linarith [hc.2])
        simp only [cumulativeKept, specKeptBefore, List.map_cons, List.sum_cons,
          if_neg (not_lt.2 h1), if_pos h2]
        rw [ih hrest, hterm]
        simp [specKeptBefore]
      · -- t falls inside the head interval
        push_neg at h2
        have hall : ∀ x ∈ rest, t < x.start := by
          intro x hx
          have := head_stop_le_of_mem hw x hx
          linarith
        have hterm : max 0 (min c.stop t - max c.start 0) = t - c.start := by
          rw [min_eq_right (le_of_lt h2), max_eq_left hc.1]
          exact max_eq_right (by linarith)
        have hz : specKeptBefore rest t = 0 :=
          specKeptBefore_eq_zero_of_forall_lt hall
        simp only [specKeptBefore] at hz
        simp only [cumulativeKept, specKeptBefore, List.map_cons, List.sum_cons,
          if_neg (not_lt.2 h1), if_neg (not_le.2 h2)]
        rw [hterm, hz]; ring

lemma cumulativeKept_nonneg {cuts : List SilenceCut} (t : ℚ)
    (hw : CutsWellFormed cuts) : 0 ≤ cumulativeKept t cuts := by
  induction cuts with
  | nil => simp [cumulativeKept]
  | cons c rest ih =>
    have hc := hw.2 c (by simp)
    have hrest := cutsWellFormed_cons hw
    by_cases h1 : c.start > t
    · simp [cumulativeKept, h1]
    · push_neg at h1
      by_cases h2 : c.stop ≤ t
      · have := ih hrest
        simp only [cumulativeKept, if_neg (not_lt.2 h1), if_pos h2]
        have := hc.2
        linarith
      · simp only [cumulativeKept, if_neg (not_lt.2 h1), if_neg h2]
        linarith

/-- Strengthened upper bound: if every kept interval starts at or after `b`,
the cumulative kept time before `t` is at most `max 0 (t - b)`. -/
lemma cumulativeKept_le_of_lb {cuts : List SilenceCut} (t b : ℚ)
    (hw : CutsWellFormed cuts) (hb : ∀ c ∈ cuts, b ≤ c.start) :
    cumulativeKept t cuts ≤ max 0 (t - b) := by
  induction cuts generalizing b with
  | nil => simp [cumulativeKept]
  | cons c rest ih =>
    have hc := hw.2 c (by simp)
    have hcb : b ≤ c.start := hb c (by simp)
    have hrest := cutsWellFormed_cons hw
    by_cases h1 : c.start > t
    · simp [cumulativeKept, h1]
    · push_neg at h1
      by_cases h2 : c.stop ≤ t
      · have hrb : ∀ x ∈ rest, c.stop ≤ x.start := head_stop_le_of_mem hw
        have hrec := ih c.stop hrest hrb
        have hmax : max 0 (t - c.stop) = t - c.stop := max_eq_right (by linarith)
        rw [hmax] at hrec
        simp only [cumulativeKept, if_neg (not_lt.2 h1), if_pos h2]
        have h3 : (c.stop - c.start) + cumulativeKept t rest ≤ t - b := by linarith
        exact h3.trans (le_max_right _ _)
      · simp only [cumulativeKept, if_neg (not_lt.2 h1), if_neg h2]
        have : t - c.start ≤ t - b := by linarith
        exact this.trans (le_max_right _ _)

/-- The cumulative kept time is monotone in the query timestamp. -/
lemma cumulativeKept_mono {cuts : List SilenceCut} {t₁ t₂ : ℚ}
    (hw : CutsWellFormed cuts) (h : t₁ ≤ t₂) :
    cumulativeKept t₁ cuts ≤ cumulativeKept t₂ cuts := by
  induction cuts with
  | nil => simp [cumulativeKept]
  | cons c rest ih =>
    have hc := hw.2 c (by simp)
    have hrest := cutsWellFormed_cons hw
    by_cases h1 : c.start > t₁
    · calc cumulativeKept t₁ (c :: rest) = 0 := by simp [cumulativeKept, h1]
        _ ≤ cumulativeKept t₂ (c :: rest) := cumulativeKept_nonneg t₂ hw
    · push_neg at h1
      have h1' : ¬ c.start > t₂ := not_lt.2 (h1.trans h)
      by_cases h2 : c.stop ≤ t₁
      · have h2' : c.stop ≤ t₂ := h2.trans h
        simp only [cumulativeKept, if_neg (not_lt.2 h1), if_neg h1', if_pos h2,
          if_pos h2']
        have := ih hrest
        linarith
      · by_cases h2' : c.stop ≤ t₂
        · have := cumulativeKept_nonneg t₂ hrest
          simp only [cumulativeKept, if_neg (not_lt.2 h1), if_neg h1',
            if_neg h2, if_pos h2']
          push_neg at h2
          linarith
        · simp only [cumulativeKept, if_neg (not_lt.2 h1), if_neg h1',
            if_neg h2, if_neg h2']
          linarith

lemma adjustOne_eq_cumulativeKept (cuts : List SilenceCut) (t : ℚ) :
    adjustOne cuts t = cumulativeKept t cuts := by
  simp only [adjustOne]; ring

/-- C2. Timestamp adjustment equals removed-time subtraction: for well-formed
kept intervals and a nonnegative original timestamp `t`, the adjusted
timestamp is `t - R(t)`, with `R(t)` the total removed duration strictly
before `t`. -/
theorem adjust_timestamps_subtracts_removed_time
    (cuts : List SilenceCut) (hw : CutsWellFormed cuts) (t : ℚ) (_ht : 0 ≤ t) :
    adjust_timestamps_for_cuts [t] cuts = [t - specRemovedBefore cuts t] := by
  have h := cumulativeKept_eq_specKeptBefore (t := t) hw
  simp only [adjust_timestamps_for_cuts, List.map_cons, List.map_nil,
    adjustOne_eq_cumulativeKept, specRemovedBefore, h]
  norm_num

/-- Witness for C2: on kept intervals `[(0,10),(20,30)]`, the original
timestamp `25` is mapped to `25 - R(25) = 15`. -/
theorem adjust_timestamps_subtracts_removed_time_witness :
    adjust_timestamps_for_cuts [25] [⟨0, 10⟩, ⟨20, 30⟩] =
      [(25 : ℚ) - specRemovedBefore [⟨0, 10⟩, ⟨20, 30⟩] 25] ∧
    adjust_timestamps_for_cuts [25] [⟨0, 10⟩, ⟨20, 30⟩] = [(15 : ℚ)] :=
  ⟨adjust_timestamps_subtracts_removed_time [⟨0, 10⟩, ⟨20, 30⟩]
      (by constructor <;> norm_num [List.chain'_cons, CutsWellFormed])
      25 (by norm_num),
    by norm_num [adjust_timestamps_for_cuts, adjustOne, cumulativeKept]⟩

/-- C10. Timestamp adjustment is monotone, and contractive on nonnegative
timestamps: `adjusted` is monotone, and for `0 ≤ t` it satisfies
`0 ≤ adjusted(t) ≤ t` and equals the total kept duration before `t`. -/
theorem adjust_timestamps_monotone_contractive
    (cuts : List SilenceCut) (hw : CutsWellFormed cuts) (t₁ t₂ : ℚ) :
    (t₁ ≤ t₂ → adjustOne cuts t₁ ≤ adjustOne cuts t₂) ∧
    (0 ≤ t₁ → 0 ≤ adjustOne cuts t₁ ∧ adjustOne cuts t₁ ≤ t₁ ∧
      adjustOne cuts t₁ = specKeptBefore cuts t₁) := by
  constructor
  · intro h12
    rw [adjustOne_eq_cumulativeKept, adjustOne_eq_cumulativeKept]
    exact cumulativeKept_mono hw h12
  · intro ht
    refine ⟨?_, ?_, ?_⟩
    · rw [adjustOne_eq_cumulativeKept]
      exact cumulativeKept_nonneg t₁ hw
    · rw [adjustOne_eq_cumulativeKept]
      have hb : ∀ c ∈ cuts, (0 : ℚ) ≤ c.start := fun c hc => (hw.2 c hc).1
      have := cumulativeKept_le_of_lb t₁ 0 hw hb
      rwa [sub_zero, max_eq_right ht] at this
    · rw [adjustOne_eq_cumulativeKept]
      exact cumulativeKept_eq_specKeptBefore hw

/-- Witness for C10 at kept intervals `[(0,10),(20,30)]`, `t₁ = 5`,
`t₂ = 25`. -/
theorem adjust_timestamps_monotone_contractive_witness :
    adjustOne [SilenceCut.mk 0 10, SilenceCut.mk 20 30] 5 ≤
      adjustOne [SilenceCut.mk 0 10, SilenceCut.mk 20 30] 25 ∧
    0 ≤ adjustOne [SilenceCut.mk 0 10, SilenceCut.mk 20 30] 5 ∧
    adjustOne [SilenceCut.mk 0 10, SilenceCut.mk 20 30] 5 ≤ 5 ∧
    adjustOne [SilenceCut.mk 0 10, SilenceCut.mk 20 30] 5 =
      specKeptBefore [SilenceCut.mk 0 10, SilenceCut.mk 20 30] 5 := by
  have h := adjust_timestamps_monotone_contractive
    [SilenceCut.mk 0 10, SilenceCut.mk 20 30]
    (by constructor <;> norm_num [List.chain'_cons, CutsWellFormed]) 5 25
  exact ⟨h.1 (by norm_num), h.2 (by norm_num)⟩

/-! ## Composite builder: zoom keyframe interpolation
(`CompositeVideoBuilder._apply_zoom_effect`, composite_builder.py) -/

/-- `ZoomKeyframe` dataclass. -/
structure ZoomKeyframe where
  time : ℚ
  zoom_factor : ℚ
  center_x : ℚ := 1/2
  center_y : ℚ := 1/2
  deriving Repr, DecidableEq

/-- The (zoom factor, center x, center y) triple a keyframe carries. -/
def kfVals (k : ZoomKeyframe) : ℚ × ℚ × ℚ :=
  (k.zoom_factor, k.center_x, k.center_y)

/-- Linear interpolation between two keyframes at time `t`
(lines 264-269 of composite_builder.py). -/
def interpKf (p k : ZoomKeyframe) (t : ℚ) : ℚ × ℚ × ℚ :=
  let progress := (t - p.time) / (k.time - p.time)
  (p.zoom_factor + progress * (k.zoom_factor - p.zoom_factor),
   p.center_x + progress * (k.center_x - p.center_x),
   p.center_y + progress * (k.center_y - p.center_y))

/-- The keyframe scan of `zoom_function` (lines 256-270): walk the sorted
keyframes, and at the first keyframe `k` with `t < k.time` return the first
keyframe's values (if `k` is first) or the interpolation with the previous
keyframe; `none` means the loop fell through its `else` clause. -/
def zoomScan (t : ℚ) : Option ZoomKeyframe → List ZoomKeyframe →
    Option (ℚ × ℚ × ℚ)
  | _, [] => none
  | prev, k :: rest =>
    if t < k.time then
      some (match prev with
        | none => kfVals k
        | some p => interpKf p k t)
    else zoomScan t (some k) rest

/-- The full per-frame keyframe lookup of `zoom_function` (lines 252-276):
defaults `(1, 0.5, 0.5)`, the scan, and the for-`else` clause falling back to
the last keyframe's values. -/
def zoomAt (kfs : List ZoomKeyframe) (t : ℚ) : ℚ × ℚ × ℚ :=
  match zoomScan t none kfs with
  | some v => v
  | none =>
    match kfs.getLast? with
    | some k => kfVals k
    | none => (1, 1/2, 1/2)

/-- Modelled from the spec's wording: before the first keyframe the first
keyframe's values hold; at or after the last keyframe the last keyframe's
values hold; between two consecutive keyframes the values are linearly
interpolated. -/
def specZoomAt : List ZoomKeyframe → ℚ → ℚ × ℚ × ℚ
  | [], _ => (1, 1/2, 1/2)
  | [k], _ => kfVals k
  | a :: b :: rest, t =>
    if t < a.time then kfVals a
    else if t < b.time then interpKf a b t
    else specZoomAt (b :: rest) t

/-- Keyframe lists are sorted strictly ascending by time. -/
def KfsSorted (kfs : List ZoomKeyframe) : Prop :=
  List.Chain' (fun a b : ZoomKeyframe => a.time < b.time) kfs

lemma zoomScan_eq_spec (t : ℚ) (a : ZoomKeyframe) (rest : List ZoomKeyframe)
    (ha : a.time ≤ t) :
    (match zoomScan t (some a) rest with
      | some v => v
      | none => kfVals (rest.getLastD a)) = specZoomAt (a :: rest) t := by
  induction rest generalizing a with
  | nil =>
    simp [zoomScan, specZoomAt, List.getLastD]
  | cons b rest ih =>
    by_cases hb : t < b.time
    · simp [zoomScan, specZoomAt, hb, if_neg (not_lt.2 ha)]
    · push_neg at hb
      have hrec := ih b hb
      simp only [zoomScan, if_neg (not_lt.2 hb)]
      rw [List.getLastD_cons]
      rw [specZoomAt, if_neg (not_lt.2 ha), if_neg (not_lt.2 hb)]
      exact hrec

lemma matchLast_eq (a : ZoomKeyframe) (rest : List ZoomKeyframe) :
    (match (a :: rest).getLast? with
      | some k => kfVals k
      | none => ((1 : ℚ), (1/2 : ℚ), (1/2 : ℚ))) = kfVals (rest.getLastD a) := by
  induction rest generalizing a with
  | nil => rfl
  | cons b rest ih =>
    rw [List.getLast?_cons_cons, List.getLastD_cons]
    exact ih b

/-- C3. Zoom keyframe interpolation with boundary clamping: for strictly
ascending keyframes, the per-frame lookup of `_apply_zoom_effect` computes
exactly the spec's clamped piecewise-linear interpolation of zoom factor and
center. -/
theorem zoom_interpolation_clamped
    (kfs : List ZoomKeyframe) (_hs : KfsSorted kfs) (t : ℚ) :
    zoomAt kfs t = specZoomAt kfs t := by
  cases kfs with
  | nil => rfl
  | cons a rest =>
    by_cases hta : t < a.time
    · cases rest with
      | nil => simp [zoomAt, zoomScan, specZoomAt, hta]
      | cons b rest' => simp [zoomAt, zoomScan, specZoomAt, hta]
    · push_neg at hta
      have h := zoomScan_eq_spec t a rest hta
      rw [zoomAt, zoomScan, if_neg (not_lt.2 hta)]
      rw [← h]
      cases hsc : zoomScan t (some a) rest with
      | some v => rfl
      | none => exact matchLast_eq a rest

/-- Witness for C3: for keyframes `[(0, 1.0), (3, 1.2)]` the zoom factor at
`t = 1.5` is `1.1`, at `t = -1` it is `1.0` (clamped to the first keyframe),
and at `t = 10` it is `1.2` (clamped to the last keyframe). -/
theorem zoom_interpolation_clamped_witness :
    zoomAt [⟨0, 1, 1/2, 1/2⟩, ⟨3, 6/5, 1/2, 1/2⟩] (3/2) =
      specZoomAt [⟨0, 1, 1/2, 1/2⟩, ⟨3, 6/5, 1/2, 1/2⟩] (3/2) ∧
    (zoomAt [⟨0, 1, 1/2, 1/2⟩, ⟨3, 6/5, 1/2, 1/2⟩] (3/2)).1 = 11/10 ∧
    (zoomAt [⟨0, 1, 1/2, 1/2⟩, ⟨3, 6/5, 1/2, 1/2⟩] (-1)).1 = 1 ∧
    (zoomAt [⟨0, 1, 1/2, 1/2⟩, ⟨3, 6/5, 1/2, 1/2⟩] 10).1 = 6/5 := by
  refine ⟨zoom_interpolation_clamped _ ?_ (3/2), ?_, ?_, ?_⟩
  · constructor <;> norm_num [KfsSorted, List.chain'_cons]
  all_goals norm_num [zoomAt, zoomScan, kfVals, interpKf]

/-! ## Overlap avoidance: `avoid_multimedia_overlaps` (video_processing.py) -/

/-- One candidate multimedia interval, as built at lines 2845-2869 of
video_processing.py: the index in its suggestion list, its kind
(`true` = B-roll, `false` = image), and the `[start, end)` window. -/
structure MInterval where
  idx : ℕ
  kind : Bool
  start : ℚ
  stop : ℚ
  deriving Repr, DecidableEq

/-- Interval construction for one suggestion list (lines 2845-2869):
`duration = min(type_duration, video_duration - start)`, keeping the
candidate only when the duration is positive. -/
def mkIntervals (kind : Bool) (typeDur videoDur : ℚ) (starts : List ℚ) :
    List MInterval :=
  starts.enum.filterMap fun p =>
    let s := p.2
    let d := min typeDur (videoDur - s)
    if 0 < d then some ⟨p.1, kind, s, s + d⟩ else none

/-- Stable insertion of an interval into a start-sorted list (a stable
realization of Python's stable `sorted(..., key=lambda x: x['start'])` at
line 2872). -/
def insertByStart (x : MInterval) : List MInterval → List MInterval
  | [] => [x]
  | y :: ys => if y.start < x.start then y :: insertByStart x ys else x :: y :: ys

/-- Stable sort by start time (line 2872). -/
def sortByStart (l : List MInterval) : List MInterval :=
  l.foldr insertByStart []

/-- The overlap test of lines 2884-2885 (and 2913-2914), with the minimum
gap of `0.5` s: candidate window `[s, e)` is too close to resolved window
`[rs, re)`. -/
def overlapsGap (s e rs re : ℚ) : Prop :=
  s < re + 1/2 ∧ e + 1/2 > rs

instance (s e rs re : ℚ) : Decidable (overlapsGap s e rs re) := by
  unfold overlapsGap
  exact inferInstance

/-- The inner conflict-resolution loop `for resolved in resolved_intervals`
(lines 2882-2925): walk the already-resolved intervals; on the first
conflicting one try shifting after it (option 1, kept when the shifted end
stays within the video), else try shifting before it (option 2, kept when
the shifted start is nonnegative and no *new* conflict arises with any other
resolved interval), else remember the unresolved conflict and keep walking;
`none` means the candidate ends with `conflict_found` still set and is
dropped. -/
def scanResolved (videoDur : ℚ) (resolvedAll : List MInterval)
    (cur : MInterval) : List MInterval → Bool → Option MInterval
  | [], conflictFound => if conflictFound then none else some cur
  | r :: rest, conflictFound =>
    if overlapsGap cur.start cur.stop r.start r.stop then
      let len := cur.stop - cur.start
      let ns := r.stop + 1/2
      let ne := ns + len
      if ne ≤ videoDur then some { cur with start := ns, stop := ne }
      else
        let ne2 := r.start - 1/2
        let ns2 := ne2 - len
        if 0 ≤ ns2 ∧ ∀ r2 ∈ resolvedAll,
            r2 = r ∨ ¬ overlapsGap ns2 ne2 r2.start r2.stop then
          some { cur with start := ns2, stop := ne2 }
        else scanResolved videoDur resolvedAll cur rest true
    else scanResolved videoDur resolvedAll cur rest conflictFound

/-- The outer loop over the sorted candidates (lines 2878-2932): each
candidate is either appended (possibly shifted) to the resolved list or
dropped. -/
def resolveAll (videoDur : ℚ) : List MInterval → List MInterval →
    List MInterval
  | acc, [] => acc
  | acc, x :: xs =>
    match scanResolved videoDur acc x acc false with
    | some x2 => resolveAll videoDur (acc ++ [x2]) xs
    | none => resolveAll videoDur acc xs

/-- `avoid_multimedia_overlaps(broll_suggestions, image_suggestions,
video_duration, broll_clip_duration, image_display_duration)`, with each
suggestion reduced to its `start_time`; returns the final B-roll and image
start times (lines 2837-2947). -/
def avoid_multimedia_overlaps (brollStarts imageStarts : List ℚ)
    (videoDur brollDur imageDur : ℚ) : List ℚ × List ℚ :=
  let bi := mkIntervals true brollDur videoDur brollStarts
  let ii := mkIntervals false imageDur videoDur imageStarts
  let allIntervals := sortByStart (bi ++ ii)
  let resolved := resolveAll videoDur [] allIntervals
  ((resolved.filter fun i => i.kind).map MInterval.start,
   (resolved.filter fun i => !i.kind).map MInterval.start)

/-- C5. Overlap conflict scenario: a B-roll at `t = 10` (4 s) and an image at
`t = 11` (4 s) in a 60 s video: the B-roll is accepted unshifted, the image
alone is shifted (to `14.5`, i.e. after the B-roll window plus the 0.5 s
gap), the two adjusted windows are separated by at least the 0.5 s minimum
gap, and each suggestion appears exactly once in the output. -/
theorem overlap_avoidance_conflict_scenario :
    avoid_multimedia_overlaps [10] [11] 60 4 4 = ([10], [29/2]) ∧
    (avoid_multimedia_overlaps [10] [11] 60 4 4).1 = [10] ∧
    (avoid_multimedia_overlaps [10] [11] 60 4 4).2 ≠ [11] ∧
    (29/2 : ℚ) - (10 + 4) ≥ 1/2 ∧
    (avoid_multimedia_overlaps [10] [11] 60 4 4).1.length = 1 ∧
    (avoid_multimedia_overlaps [10] [11] 60 4 4).2.length = 1 := by
  refine ⟨?_, ?_, ?_, by norm_num, ?_, ?_⟩ <;>
    norm_num [avoid_multimedia_overlaps, mkIntervals, sortByStart,
      insertByStart, resolveAll, scanResolved, overlapsGap, List.enum,
      List.enumFrom, List.filterMap]

/-- C6 fails on the code: the option-1 shift at lines 2890-2902 never checks
for new conflicts, so a first pass over B-roll starts `[0, 1, 2]` (4 s clips,
20 s video) yields starts `[0, 4.5, 4.5]` — two overlapping windows,
contradicting the function's own docstring — and a second pass over that
output shifts the duplicate to `9` instead of leaving the set unchanged. -/
theorem overlap_avoidance_not_idempotent :
    avoid_multimedia_overlaps [0, 1, 2] [] 20 4 4 = ([0, 9/2, 9/2], []) ∧
    avoid_multimedia_overlaps [0, 9/2, 9/2] [] 20 4 4 = ([0, 9/2, 9], []) ∧
    avoid_multimedia_overlaps [0, 9/2, 9/2] [] 20 4 4 ≠ ([0, 9/2, 9/2], []) := by
  refine ⟨?_, ?_, ?_⟩ <;>
    norm_num [avoid_multimedia_overlaps, mkIntervals, sortByStart,
      insertByStart, resolveAll, scanResolved, overlapsGap, List.enum,
      List.enumFrom, List.filterMap]

/-! ## SRT timestamp formatting: `_format_time_srt` (video_processing.py) -/

/-- Python `int()` applied to a rational: truncation toward zero. -/
def pyInt (q : ℚ) : ℤ :=
  if 0 ≤ q then ⌊q⌋ else -⌊-q⌋

/-- Python `round()` applied to a rational: nearest integer, ties to even. -/
def pyRound (q : ℚ) : ℤ :=
  let f := ⌊q⌋
  let frac := q - f
  if frac < 1/2 then f
  else if 1/2 < frac then f + 1
  else if f % 2 = 0 then f else f + 1

/-- Python `divmod` on integers: floored quotient and remainder. -/
def pyDivMod (a b : ℤ) : ℤ × ℤ := (Int.fdiv a b, Int.fmod a b)

/-- Python `f"{n:02d}"`-style formatting: decimal digits, zero-padded on the
left to the minimum width, never truncated. -/
def padZeros (w : ℕ) (n : ℤ) : String :=
  let s := toString n
  if s.length < w then String.mk (List.replicate (w - s.length) '0') ++ s else s

/-- `_format_time_srt(time_seconds)` (lines 353-359 of video_processing.py):
`millisec = int(round((t - int(t)) * 1000))`, `divmod` chains for
hours/minutes/seconds, and `f"{hours:02d}:{minutes:02d}:{seconds:02d},{millisec:03d}"`. -/
def _format_time_srt (t : ℚ) : String :=
  let millisec := pyRound ((t - (pyInt t : ℚ)) * 1000)
  let seconds0 := pyInt t
  let minutes0 := (pyDivMod seconds0 60).1
  let seconds := (pyDivMod seconds0 60).2
  let hours := (pyDivMod minutes0 60).1
  let minutes := (pyDivMod minutes0 60).2
  padZeros 2 hours ++ ":" ++ padZeros 2 minutes ++ ":" ++ padZeros 2 seconds
    ++ "," ++ padZeros 3 millisec

/-- Modelled from the spec's wording: the exact SRT timestamp shape
`HH:MM:SS,mmm` — two digits, a colon, two digits, a colon, two digits, a
comma, and exactly three digits (whose value is then necessarily in
000-999). -/
def isValidSrtTimestamp (s : String) : Bool :=
  match s.toList with
  | [h1, h2, c1, m1, m2, c2, s1, s2, c3, d1, d2, d3] =>
    h1.isDigit && h2.isDigit && (c1 == ':') && m1.isDigit && m2.isDigit &&
      (c2 == ':') && s1.isDigit && s2.isDigit && (c3 == ',') &&
      d1.isDigit && d2.isDigit && d3.isDigit
  | _ => false

/-- C9 fails on the code: at `time_seconds = 0.9995` the millisecond field
rounds to `1000`, so `_format_time_srt` emits `00:00:00,1000` — a four-digit
millisecond field outside the SRT grammar (the correct rendering would be
`00:00:01,000`); an ordinary input like `25.5` is rendered correctly. -/
theorem format_time_srt_millisecond_overflow :
    _format_time_srt (1999/2000) = "00:00:00,1000" ∧
    isValidSrtTimestamp (_format_time_srt (1999/2000)) = false ∧
    _format_time_srt (51/2) = "00:00:25,500" ∧
    isValidSrtTimestamp (_format_time_srt (51/2)) = true := by
  have hint : pyInt (1999/2000) = 0 := by norm_num [pyInt]
  have harg : ((1999/2000 : ℚ) - (pyInt (1999/2000) : ℚ)) * 1000 = 1999/2 := by
    rw [hint]; norm_num
  have hms : pyRound (((1999/2000 : ℚ) - (pyInt (1999/2000) : ℚ)) * 1000)
      = 1000 := by
    rw [harg]
    have hf : ⌊(1999/2 : ℚ)⌋ = 999 := by norm_num
    simp only [pyRound, hf]
    norm_num
  have h1 : _format_time_srt (1999/2000) = "00:00:00,1000" := by
    rw [_format_time_srt, hms, hint]
    decide
  have hint2 : pyInt (51/2) = 25 := by norm_num [pyInt]
  have harg2 : ((51/2 : ℚ) - (pyInt (51/2) : ℚ)) * 1000 = 500 := by
    rw [hint2]; norm_num
  have hms2 : pyRound (((51/2 : ℚ) - (pyInt (51/2) : ℚ)) * 1000) = 500 := by
    rw [harg2]
    have hf : ⌊(500 : ℚ)⌋ = 500 := by norm_num
    simp only [pyRound, hf]
    norm_num
  have h2 : _format_time_srt (51/2) = "00:00:25,500" := by
    rw [_format_time_srt, hms2, hint2]
    decide
  refine ⟨h1, ?_, h2, ?_⟩
  · rw [h1]; decide
  · rw [h2]; decide

/-! ## Stage orchestrator: transcription hard-dependency handling
(`process_video`, video_processing.py) -/

/-- The stage-toggle flags of `process_video` that the transcription
hard-dependency logic touches or that run independently of it. -/
structure PipelineFlags where
  skip_audio : Bool
  skip_silence : Bool
  skip_bad_take_removal : Bool
  skip_transcription : Bool
  skip_gpt_correct : Bool
  skip_ai_highlights : Bool
  skip_broll : Bool
  skip_image_generation : Bool
  skip_enhanced_auto_zoom : Bool
  skip_subtitle_burn : Bool
  use_ai_word_highlighting : Bool
  deriving Repr, DecidableEq

/-- Step 3 of `process_video` (lines 1866-1874): when transcription runs and
fails, the four transcript-dependent skip flags are forced on together. -/
def flagsAfterTranscription (f : PipelineFlags) (transcribeOk : Bool) :
    PipelineFlags :=
  if !f.skip_transcription && !transcribeOk then
    { f with skip_gpt_correct := true, skip_subtitle_burn := true,
             skip_ai_highlights := true, skip_broll := true }
  else f

/-- Whether the transcript file exists after step 3 (fresh run): touched
empty when transcription is skipped (line 1874), written by
`transcribe_video_whisper` on success, absent on failure. -/
def transcriptExists (f : PipelineFlags) (transcribeOk : Bool) : Bool :=
  if f.skip_transcription then true else transcribeOk

/-- Step 4 guard (line 1907): `not skip_gpt_correct and
transcript_path.exists()`. -/
def runsGptCorrection (f : PipelineFlags) (transcribeOk : Bool) : Bool :=
  !(flagsAfterTranscription f transcribeOk).skip_gpt_correct &&
    transcriptExists f transcribeOk

/-- Step 7 guard (line 1932): `(not skip_ai_highlights or
use_ai_word_highlighting) and transcript_path.exists()`. -/
def runsAiHighlights (f : PipelineFlags) (transcribeOk : Bool) : Bool :=
  (!(flagsAfterTranscription f transcribeOk).skip_ai_highlights ||
    f.use_ai_word_highlighting) && transcriptExists f transcribeOk

/-- B-roll insertion: step 8's guard (line 1960) together with the
`skip_broll` flag passed into `create_comprehensive_multimedia_video`
(line 1991). -/
def runsBrollInsertion (f : PipelineFlags) (transcribeOk : Bool) : Bool :=
  ((!(flagsAfterTranscription f transcribeOk).skip_broll ||
      !f.skip_image_generation) && transcriptExists f transcribeOk) &&
    !(flagsAfterTranscription f transcribeOk).skip_broll

/-- Step 15 guard (line 2112): `not skip_subtitle_burn and
transcript_path.exists()`. -/
def runsSubtitleBurn (f : PipelineFlags) (transcribeOk : Bool) : Bool :=
  !(flagsAfterTranscription f transcribeOk).skip_subtitle_burn &&
    transcriptExists f transcribeOk

/-- Step 9 guard (line 2013): enhanced auto zoom depends only on its own
flag. -/
def runsEnhancedZoom (f : PipelineFlags) : Bool :=
  !f.skip_enhanced_auto_zoom

/-- C7. Transcription hard-dependency skipping: if the transcription stage
runs and fails, GPT correction, subtitle burning, AI highlights and B-roll
insertion are all skipped for the run (and not handed an empty transcript:
none exists), while the flags of every other stage are left untouched, so
the rest of the pipeline continues on the last successful artifact. -/
theorem transcription_failure_skips_dependents
    (f : PipelineFlags) (h : f.skip_transcription = false) :
    runsGptCorrection f false = false ∧
    runsSubtitleBurn f false = false ∧
    runsAiHighlights f false = false ∧
    runsBrollInsertion f false = false ∧
    transcriptExists f false = false ∧
    runsEnhancedZoom (flagsAfterTranscription f false) = runsEnhancedZoom f ∧
    (flagsAfterTranscription f false).skip_audio = f.skip_audio ∧
    (flagsAfterTranscription f false).skip_silence = f.skip_silence ∧
    (flagsAfterTranscription f false).skip_bad_take_removal
      = f.skip_bad_take_removal ∧
    (flagsAfterTranscription f false).skip_image_generation
      = f.skip_image_generation ∧
    (flagsAfterTranscription f false).skip_enhanced_auto_zoom
      = f.skip_enhanced_auto_zoom := by
  simp [runsGptCorrection, runsSubtitleBurn, runsAiHighlights,
    runsBrollInsertion, transcriptExists, runsEnhancedZoom,
    flagsAfterTranscription, h]

/-- Witness for C7: the all-stages-enabled configuration with AI word
highlighting requested still skips all four transcript dependents when
transcription fails. -/
theorem transcription_failure_skips_dependents_witness :
    runsGptCorrection
      ⟨false, false, false, false, false, false, false, false, false, false,
        true⟩ false = false ∧
    runsSubtitleBurn
      ⟨false, false, false, false, false, false, false, false, false, false,
        true⟩ false = false ∧
    runsAiHighlights
      ⟨false, false, false, false, false, false, false, false, false, false,
        true⟩ false = false ∧
    runsBrollInsertion
      ⟨false, false, false, false, false, false, false, false, false, false,
        true⟩ false = false := by
  have h := transcription_failure_skips_dependents
    ⟨false, false, false, false, false, false, false, false, false, false,
      true⟩ rfl
  exact ⟨h.1, h.2.1, h.2.2.1, h.2.2.2.1⟩

/-! ## Composite builder: background music
(`CompositeVideoBuilder._apply_background_music`, composite_builder.py) -/

/-- The moviepy audio operations available around
`_apply_background_music`: audio file clips, the source clip's own audio
track, subclipping, `[music] * loops` concatenation, volume scaling,
two-track compositing, and moviepy's audio fade-in/fade-out (which the
builder never calls). -/
inductive AudioExpr where
  | file (dur : ℚ)
  | sourceAudio (dur : ℚ)
  | subclipA (e : AudioExpr) (a b : ℚ)
  | loopN (n : ℕ) (e : AudioExpr)
  | volumex (e : AudioExpr) (v : ℚ)
  | mix2 (a b : AudioExpr)
  | fadein (e : AudioExpr) (d : ℚ)
  | fadeout (e : AudioExpr) (d : ℚ)
  deriving Repr, DecidableEq

/-- Duration of an audio expression. -/
def durA : AudioExpr → ℚ
  | .file d => d
  | .sourceAudio d => d
  | .subclipA _ a b => b - a
  | .loopN n e => n * durA e
  | .volumex e _ => durA e
  | .mix2 a b => max (durA a) (durA b)
  | .fadein e _ => durA e
  | .fadeout e _ => durA e

/-- Every subclip stays within the duration of the clip it trims. -/
def wellFormedA : AudioExpr → Prop
  | .file d => 0 ≤ d
  | .sourceAudio d => 0 ≤ d
  | .subclipA e a b => wellFormedA e ∧ 0 ≤ a ∧ a ≤ b ∧ b ≤ durA e
  | .loopN _ e => wellFormedA e
  | .volumex e _ => wellFormedA e
  | .mix2 a b => wellFormedA a ∧ wellFormedA b
  | .fadein e _ => wellFormedA e
  | .fadeout e _ => wellFormedA e

/-- Whether any fade-in/fade-out operation occurs in the expression. -/
def hasFade : AudioExpr → Bool
  | .file _ => false
  | .sourceAudio _ => false
  | .subclipA e _ _ => hasFade e
  | .loopN _ e => hasFade e
  | .volumex e _ => hasFade e
  | .mix2 a b => hasFade a || hasFade b
  | .fadein _ _ => true
  | .fadeout _ _ => true

/-- Whether the source clip's own audio track occurs in the expression. -/
def usesSource : AudioExpr → Bool
  | .file _ => false
  | .sourceAudio _ => true
  | .subclipA e _ _ => usesSource e
  | .loopN _ e => usesSource e
  | .volumex e _ => usesSource e
  | .mix2 a b => usesSource a || usesSource b
  | .fadein e _ => usesSource e
  | .fadeout e _ => usesSource e

/-- Lines 354-359 of composite_builder.py: loop the music
(`loops = int(np.ceil(clip.duration / music.duration))`, then
`subclip(0, clip.duration)`) when it is shorter than the clip, else just
trim it to the clip's duration. -/
def musicTrimmed (md cd : ℚ) : AudioExpr :=
  if md < cd then
    AudioExpr.subclipA (AudioExpr.loopN (Int.toNat ⌈cd / md⌉)
      (AudioExpr.file md)) 0 cd
  else AudioExpr.subclipA (AudioExpr.file md) 0 cd

/-- The audio track produced by `_apply_background_music` (lines 349-371):
the looped/trimmed music scaled by the music volume, mixed with the
original audio scaled by the speech volume when the clip has audio, else
the music alone. `md`/`cd` are the music and clip durations. -/
def _apply_background_music (md cd mv sv : ℚ) (hasAudio : Bool) : AudioExpr :=
  let music := AudioExpr.volumex (musicTrimmed md cd) mv
  if hasAudio then
    AudioExpr.mix2 (AudioExpr.volumex (AudioExpr.sourceAudio cd) sv) music
  else music

lemma musicTrimmed_dur (md cd : ℚ) : durA (musicTrimmed md cd) = cd := by
  unfold musicTrimmed
  split <;> simp [durA]

lemma musicTrimmed_wf {md cd : ℚ} (hmd : 0 < md) (hcd : 0 < cd) :
    wellFormedA (musicTrimmed md cd) := by
  unfold musicTrimmed
  split
  · rename_i hlt
    refine ⟨le_of_lt hmd, le_refl 0, le_of_lt hcd, ?_⟩
    show cd ≤ (Int.toNat ⌈cd / md⌉ : ℚ) * durA (AudioExpr.file md)
    have h0 : (0 : ℤ) ≤ ⌈cd / md⌉ :=
      Int.ceil_nonneg (div_nonneg (le_of_lt hcd) (le_of_lt hmd))
    have hcast : ((Int.toNat ⌈cd / md⌉ : ℕ) : ℚ) = ((⌈cd / md⌉ : ℤ) : ℚ) := by
      exact_mod_cast Int.toNat_of_nonneg h0
    rw [hcast]
    have hle : cd / md ≤ ((⌈cd / md⌉ : ℤ) : ℚ) := Int.le_ceil _
    calc cd = (cd / md) * md := by field_simp
      _ ≤ ((⌈cd / md⌉ : ℤ) : ℚ) * md :=
          mul_le_mul_of_nonneg_right hle (le_of_lt hmd)
      _ = ((⌈cd / md⌉ : ℤ) : ℚ) * durA (AudioExpr.file md) := rfl
  · rename_i hge
    push_neg at hge
    exact ⟨le_of_lt hmd, le_refl 0, le_of_lt hcd, hge⟩

lemma musicTrimmed_noFade (md cd : ℚ) : hasFade (musicTrimmed md cd) = false := by
  unfold musicTrimmed
  split <;> rfl

lemma musicTrimmed_noSource (md cd : ℚ) :
    usesSource (musicTrimmed md cd) = false := by
  unfold musicTrimmed
  split <;> rfl

/-- Counterexample to C8 as stated: the builder's music step applies no
fade-in/fade-out at all — neither for a short looping music file in a clip
with audio nor for a long trimmed one in a clip without audio. -/
theorem background_music_no_fade :
    hasFade (_apply_background_music 4 10 (3/10) 1 true) = false ∧
    hasFade (_apply_background_music 12 10 (3/10) 1 false) = false := by
  constructor <;>
    simp [_apply_background_music, hasFade, musicTrimmed_noFade]

/-- C8 (amended: the step applies no fade-in/fade-out). Background-music
mixing: the music is looped or trimmed to exactly the clip's duration
(trimmed when longer, repeated enough times then trimmed when shorter, the
trim staying within the looped material), scaled by the music volume and
mixed with the original audio scaled by the speech volume; when the clip
has no audio track the scaled music is the sole audio track. -/
theorem background_music_mixing (md cd mv sv : ℚ)
    (hmd : 0 < md) (hcd : 0 < cd) (ha : Bool) :
    durA (_apply_background_music md cd mv sv ha) = cd ∧
    wellFormedA (_apply_background_music md cd mv sv ha) ∧
    usesSource (_apply_background_music md cd mv sv ha) = ha ∧
    (ha = true → _apply_background_music md cd mv sv ha =
      AudioExpr.mix2 (AudioExpr.volumex (AudioExpr.sourceAudio cd) sv)
        (AudioExpr.volumex (musicTrimmed md cd) mv)) ∧
    (ha = false → _apply_background_music md cd mv sv ha =
      AudioExpr.volumex (musicTrimmed md cd) mv) := by
  have hdur := musicTrimmed_dur md cd
  have hwf := musicTrimmed_wf hmd hcd
  cases ha with
  | true =>
    have he : _apply_background_music md cd mv sv true =
        AudioExpr.mix2 (AudioExpr.volumex (AudioExpr.sourceAudio cd) sv)
          (AudioExpr.volumex (musicTrimmed md cd) mv) := rfl
    refine ⟨?_, ?_, ?_, fun _ => he, fun h => Bool.noConfusion h⟩
    · rw [he]; simp [durA, hdur]
    · rw [he]; exact ⟨le_of_lt hcd, hwf⟩
    · rw [he]; simp [usesSource, musicTrimmed_noSource]
  | false =>
    have he : _apply_background_music md cd mv sv false =
        AudioExpr.volumex (musicTrimmed md cd) mv := rfl
    refine ⟨?_, ?_, ?_, fun h => Bool.noConfusion h, fun _ => he⟩
    · rw [he]; simp [durA, hdur]
    · rw [he]; exact hwf
    · rw [he]; simp [usesSource, musicTrimmed_noSource]

/-- Witness for C8's amended theorem at a 4 s music file, 10 s clip,
volumes 0.3/1.0, with and without a source audio track. -/
theorem background_music_mixing_witness :
    durA (_apply_background_music 4 10 (3/10) 1 true) = 10 ∧
    usesSource (_apply_background_music 4 10 (3/10) 1 true) = true ∧
    durA (_apply_background_music 4 10 (3/10) 1 false) = 10 ∧
    usesSource (_apply_background_music 4 10 (3/10) 1 false) = false := by
  have h1 := background_music_mixing 4 10 (3/10) 1 (by norm_num)
    (by norm_num) true
  have h2 := background_music_mixing 4 10 (3/10) 1 (by norm_num)
    (by norm_num) false
  exact ⟨h1.1, h1.2.2.1, h2.1, h2.2.2.1⟩

/-! ## Single-pass renderer: stage order and resource lifecycle
(`CompositeVideoBuilder.render`, composite_builder.py) -/

/-- One queued media overlay, reduced to whether loading its media file
succeeds; a failing load is caught inside the per-overlay `try` (lines
313-333) and opens no handle. -/
structure OverlayCfg where
  loadOk : Bool
  deriving Repr, DecidableEq

/-- The builder state `render` starts from: the queued effect lists and the
clips already opened by `add_intro`/`add_outro` (lines 175-177 and 191-193),
plus whether background music is set and its file exists (line 344). -/
structure BuilderConfig where
  silence_cuts : List SilenceCut
  zoom_keyframes : List ZoomKeyframe
  media_overlays : List OverlayCfg
  introCount : ℕ
  outroCount : ℕ
  musicSet : Bool
  musicExists : Bool

/-- The effect stages of `render` (steps 1-6, lines 409-431) and the single
write-to-disk encode (line 437). -/
inductive RStep where
  | cuts
  | zoom
  | overlays
  | music
  | intro
  | outro
  | encode
  deriving Repr, DecidableEq

/-- Renderer state: fresh handle counter, currently open media handles, the
handles recorded in `_loaded_clips`, the stages applied so far, and whether
an exception is propagating. -/
structure RState where
  nextId : ℕ
  openH : List ℕ
  tracked : List ℕ
  trace : List RStep
  raised : Bool

/-- Open one media clip and immediately record it in `_loaded_clips`, as
every open site in the builder does. -/
def openTracked (s : RState) : RState :=
  { s with
    nextId := s.nextId + 1
    openH := s.openH ++ [s.nextId]
    tracked := s.tracked ++ [s.nextId] }

/-- Open `n` clips (the `add_intro`/`add_outro` call sites). -/
def openN : ℕ → RState → RState
  | 0, s => s
  | n + 1, s => openN n (openTracked s)

/-- The guard `render` checks before entering each stage (lines 410, 414,
418, 422, 426, 430); the encode always runs. -/
def stageEnabled (cfg : BuilderConfig) : RStep → Bool
  | .cuts => !cfg.silence_cuts.isEmpty
  | .zoom => !cfg.zoom_keyframes.isEmpty
  | .overlays => !cfg.media_overlays.isEmpty
  | .music => cfg.musicSet
  | .intro => decide (cfg.introCount ≠ 0)
  | .outro => decide (cfg.outroCount ≠ 0)
  | .encode => true

/-- The handles a stage opens: one per successfully loading overlay
(lines 315-330), and the music file clip when it exists (lines 351-352);
cuts, zoom, intro/outro concatenation and the encode derive clips without
opening new files. -/
def stageOpens (cfg : BuilderConfig) : RStep → RState → RState
  | .overlays, s =>
    cfg.media_overlays.foldl
      (fun st ov => if ov.loadOk then openTracked st else st) s
  | .music, s => if cfg.musicExists then openTracked s else s
  | _, s => s

/-- One step of `render`'s `try` body with an optional injected fault: a
skipped or already-aborted stage does nothing; an entered stage first opens
its handles; a fault injected at the music stage is swallowed by that
stage's internal `except` (lines 374-375), a fault anywhere else starts
propagating; otherwise the stage is applied. -/
def doStep (cfg : BuilderConfig) (fault : Option RStep) (s : RState)
    (st : RStep) : RState :=
  if s.raised then s
  else if !(stageEnabled cfg st) then s
  else
    let s2 := stageOpens cfg st s
    if fault = some st then
      if st = RStep.music then s2
      else { s2 with raised := true }
    else { s2 with trace := s2.trace ++ [st] }

/-- The textual order of `render`'s `try` body (lines 409-445). -/
def renderSteps : List RStep :=
  [.cuts, .zoom, .overlays, .music, .intro, .outro, .encode]

/-- The `finally` cleanup (lines 450-452 and 454-462): close every clip in
`_loaded_clips`. -/
def cleanup (s : RState) : RState :=
  { s with
    openH := s.openH.filter (fun h => decide (h ∉ s.tracked))
    tracked := [] }

/-- `render(output_path, ...)` with an optional fault injected at one stage:
the intro/outro clips were opened by the `add_*` calls, the base clip is
opened first (lines 402-403), the stages run in textual order inside `try`,
and cleanup always runs in `finally`. -/
def render (cfg : BuilderConfig) (fault : Option RStep) : RState :=
  let s0 : RState := ⟨0, [], [], [], false⟩
  let s1 := openN cfg.introCount s0
  let s2 := openN cfg.outroCount s1
  let s3 := openTracked s2
  let s4 := renderSteps.foldl (doStep cfg fault) s3
  cleanup s4

/-- Modelled from the spec's wording (C4): the stage order is silence cuts,
zoom, overlays, music, intro/outro concatenation — each when configured —
followed by exactly one encode. -/
def specRenderOrder (cfg : BuilderConfig) : List RStep :=
  (if ¬cfg.silence_cuts.isEmpty then [RStep.cuts] else []) ++
  (if ¬cfg.zoom_keyframes.isEmpty then [RStep.zoom] else []) ++
  (if ¬cfg.media_overlays.isEmpty then [RStep.overlays] else []) ++
  (if cfg.musicSet then [RStep.music] else []) ++
  (if cfg.introCount ≠ 0 then [RStep.intro] else []) ++
  (if cfg.outroCount ≠ 0 then [RStep.outro] else []) ++
  [RStep.encode]

lemma openTracked_inv {s : RState} (h : s.openH = s.tracked) :
    (openTracked s).openH = (openTracked s).tracked := by
  simp [openTracked, h]

lemma openN_inv {n : ℕ} {s : RState} (h : s.openH = s.tracked) :
    (openN n s).openH = (openN n s).tracked := by
  induction n generalizing s with
  | zero => exact h
  | succ n ih => exact ih (openTracked_inv h)

lemma foldlOverlays_inv (ovs : List OverlayCfg) {s : RState}
    (h : s.openH = s.tracked) :
    (ovs.foldl (fun st ov => if ov.loadOk then openTracked st else st)
        s).openH
      = (ovs.foldl (fun st ov => if ov.loadOk then openTracked st else st)
        s).tracked := by
  induction ovs generalizing s with
  | nil => exact h
  | cons ov rest ih =>
    simp only [List.foldl_cons]
    by_cases hov : ov.loadOk = true
    · rw [if_pos hov]
      exact ih (openTracked_inv h)
    · rw [if_neg hov]
      exact ih h

lemma stageOpens_inv (cfg : BuilderConfig) (st : RStep) {s : RState}
    (h : s.openH = s.tracked) :
    (stageOpens cfg st s).openH = (stageOpens cfg st s).tracked := by
  cases st with
  | overlays => exact foldlOverlays_inv cfg.media_overlays h
  | music =>
    show (if cfg.musicExists then openTracked s else s).openH
      = (if cfg.musicExists then openTracked s else s).tracked
    by_cases hm : cfg.musicExists = true
    · rw [if_pos hm]
      exact openTracked_inv h
    · rw [if_neg hm]
      exact h
  | cuts => exact h
  | zoom => exact h
  | intro => exact h
  | outro => exact h
  | encode => exact h

lemma doStep_inv (cfg : BuilderConfig) (fault : Option RStep) (st : RStep)
    {s : RState} (h : s.openH = s.tracked) :
    (doStep cfg fault s st).openH = (doStep cfg fault s st).tracked := by
  unfold doStep
  have hop := stageOpens_inv cfg st h
  split
  · exact h
  · split
    · exact h
    · split
      · split
        · exact hop
        · exact hop
      · exact hop

lemma foldl_doStep_inv (cfg : BuilderConfig) (fault : Option RStep)
    (steps : List RStep) {s : RState} (h : s.openH = s.tracked) :
    (steps.foldl (doStep cfg fault) s).openH
      = (steps.foldl (doStep cfg fault) s).tracked := by
  induction steps generalizing s with
  | nil => exact h
  | cons st rest ih => exact ih (doStep_inv cfg fault st h)

/-- C1. No media handle leaks past `render()`: for every builder
configuration (cuts, zoom keyframes, overlays with possibly-failing loads,
intro/outro clips, background music) and every injected fault — at any of
the five effect stages, at the final encode, or none — every media handle
the builder opened has been closed when `render` returns or the exception
leaves it. -/
theorem render_closes_all_handles (cfg : BuilderConfig)
    (fault : Option RStep) : (render cfg fault).openH = [] := by
  have h0 : (⟨0, [], [], [], false⟩ : RState).openH
      = (⟨0, [], [], [], false⟩ : RState).tracked := rfl
  have h1 := openN_inv (n := cfg.introCount) h0
  have h2 := openN_inv (n := cfg.outroCount) h1
  have h3 := openTracked_inv h2
  have h4 := foldl_doStep_inv cfg fault renderSteps h3
  show (cleanup _).openH = []
  rw [cleanup]
  simp only [List.filter_eq_nil_iff]
  intro a ha
  rw [h4] at ha
  simp [ha]

lemma openTracked_aux (s : RState) :
    (openTracked s).trace = s.trace ∧ (openTracked s).raised = s.raised :=
  ⟨rfl, rfl⟩

lemma openN_aux (n : ℕ) (s : RState) :
    (openN n s).trace = s.trace ∧ (openN n s).raised = s.raised := by
  induction n generalizing s with
  | zero => exact ⟨rfl, rfl⟩
  | succ n ih => exact ih (openTracked s)

lemma foldlOverlays_aux (ovs : List OverlayCfg) (s : RState) :
    (ovs.foldl (fun st ov => if ov.loadOk then openTracked st else st)
        s).trace = s.trace ∧
    (ovs.foldl (fun st ov => if ov.loadOk then openTracked st else st)
        s).raised = s.raised := by
  induction ovs generalizing s with
  | nil => exact ⟨rfl, rfl⟩
  | cons ov rest ih =>
    simp only [List.foldl_cons]
    by_cases hov : ov.loadOk = true
    · rw [if_pos hov]
      exact ih (openTracked s)
    · rw [if_neg hov]
      exact ih s

lemma stageOpens_aux (cfg : BuilderConfig) (st : RStep) (s : RState) :
    (stageOpens cfg st s).trace = s.trace ∧
    (stageOpens cfg st s).raised = s.raised := by
  cases st with
  | overlays => exact foldlOverlays_aux cfg.media_overlays s
  | music =>
    show (if cfg.musicExists then openTracked s else s).trace = s.trace ∧
      (if cfg.musicExists then openTracked s else s).raised = s.raised
    by_cases hm : cfg.musicExists = true
    · rw [if_pos hm]
      exact ⟨rfl, rfl⟩
    · rw [if_neg hm]
      exact ⟨rfl, rfl⟩
  | cuts => exact ⟨rfl, rfl⟩
  | zoom => exact ⟨rfl, rfl⟩
  | intro => exact ⟨rfl, rfl⟩
  | outro => exact ⟨rfl, rfl⟩
  | encode => exact ⟨rfl, rfl⟩

/-- Without a fault, one step appends exactly its stage to the trace when
enabled and leaves the no-exception status intact. -/
lemma doStep_trace_none (cfg : BuilderConfig) (st : RStep) {s : RState}
    (h : s.raised = false) :
    (doStep cfg none s st).trace
        = s.trace ++ (if stageEnabled cfg st then [st] else []) ∧
    (doStep cfg none s st).raised = false := by
  have hop := stageOpens_aux cfg st s
  unfold doStep
  rw [h]
  simp only [Bool.false_eq_true, if_false]
  by_cases hen : stageEnabled cfg st = true
  · simp only [hen, Bool.not_true, Bool.false_eq_true, if_false, if_pos]
    simp [hop.1, hop.2, h]
  · simp only [Bool.not_eq_true] at hen
    simp [hen, h]

lemma foldl_doStep_trace (cfg : BuilderConfig) (steps : List RStep)
    {s : RState} (h : s.raised = false) :
    (steps.foldl (doStep cfg none) s).trace
      = s.trace ++ steps.filter (stageEnabled cfg) := by
  induction steps generalizing s with
  | nil => simp
  | cons st rest ih =>
    have hd := doStep_trace_none cfg st h
    simp only [List.foldl_cons, List.filter_cons]
    rw [ih hd.2, hd.1]
    by_cases hen : stageEnabled cfg st = true
    · simp [hen]
    · simp only [Bool.not_eq_true] at hen
      simp [hen]

/-- C4. Fixed render stage order: for every builder configuration, a
fault-free `render` applies exactly the configured stages, in the order
silence cuts, zoom, media overlays, background music, intro prepend, outro
append, and performs exactly one write-to-disk encode, at the end. -/
theorem render_stage_order (cfg : BuilderConfig) :
    (render cfg none).trace = specRenderOrder cfg ∧
    (render cfg none).trace.count RStep.encode = 1 ∧
    (render cfg none).trace.getLast? = some RStep.encode := by
  have h0 := openN_aux cfg.introCount (⟨0, [], [], [], false⟩ : RState)
  have h1 := openN_aux cfg.outroCount
    (openN cfg.introCount (⟨0, [], [], [], false⟩ : RState))
  have hs3r : (openTracked (openN cfg.outroCount (openN cfg.introCount
      (⟨0, [], [], [], false⟩ : RState)))).raised = false := by
    show (openN cfg.outroCount (openN cfg.introCount
      (⟨0, [], [], [], false⟩ : RState))).raised = false
    rw [h1.2, h0.2]
  have hs3t : (openTracked (openN cfg.outroCount (openN cfg.introCount
      (⟨0, [], [], [], false⟩ : RState)))).trace = [] := by
    show (openN cfg.outroCount (openN cfg.introCount
      (⟨0, [], [], [], false⟩ : RState))).trace = []
    rw [h1.1, h0.1]
  have htr : (render cfg none).trace
      = renderSteps.filter (stageEnabled cfg) := by
    show (renderSteps.foldl (doStep cfg none) (openTracked (openN
      cfg.outroCount (openN cfg.introCount
        (⟨0, [], [], [], false⟩ : RState))))).trace = _
    rw [foldl_doStep_trace cfg renderSteps hs3r, hs3t]
    rfl
  have hspec : renderSteps.filter (stageEnabled cfg) = specRenderOrder cfg := by
    by_cases hi : cfg.introCount = 0 <;>
      by_cases hoo : cfg.outroCount = 0 <;>
      cases hc : cfg.silence_cuts.isEmpty <;>
      cases hz : cfg.zoom_keyframes.isEmpty <;>
      cases ho : cfg.media_overlays.isEmpty <;>
      cases hm : cfg.musicSet <;>
      simp [renderSteps, specRenderOrder, stageEnabled, List.filter,
        hc, hz, ho, hm, hi, hoo]
  refine ⟨htr.trans hspec, ?_, ?_⟩
  · rw [htr, hspec]
    unfold specRenderOrder
    split_ifs <;> decide
  · rw [htr, hspec]
    unfold specRenderOrder
    split_ifs <;> decide

end SocialSync
